import Mathlib

/-!
Formal model of the skyll skill-discovery pipeline.

This file gives a shallow embedding, in Lean 4, of the core components of the
skyll repository (https://github.com/assafelovic/skyll):

* `src/core/parser.py`  — SKILL.md front-matter parser (`SkillParser`);
* `src/cache/memory.py` — the in-memory TTL cache (`InMemoryCache`);
* `src/clients/github.py` — skill path resolution and URL builders
  (`GitHubClient`);
* `src/core/service.py` — content fetch memoization, skill assembly and
  multi-source deduplication (`SkillSearchService`);
* `src/ranking/relevance.py` — the multi-signal ranker (`RelevanceRanker`).

Python strings are modelled as Lean `String`/`List Char` (ASCII fragment:
`str.lower` and the whitespace classes are modelled for ASCII characters
only, which covers every identifier, path and delimiter the pipeline
manipulates).  Python `float` arithmetic is modelled over `ℚ` where the
source only performs exact field arithmetic, and over `ℝ` for the one
transcendental operation (`math.log10`); floating-point rounding error is
not modelled, matching the spec's "± rounding" reading.  `yaml.safe_load`
(the external PyYAML dependency) is kept abstract as a function parameter
`String → Except String Yaml`; concrete theorems instantiate it with a
small table model whose entries follow the YAML 1.1 semantics implemented
by PyYAML.
-/

/-! ### Python string primitives (ASCII fragment) -/

/-- ASCII white-space characters recognised by Python's `str.strip`,
`str.split()` and the regex class `\s`. -/
def pySpace (c : Char) : Bool :=
  c == ' ' || c == '\t' || c == '\n' || c == '\r' || c == '\x0b' || c == '\x0c'

/-- `str.strip()` on a character list: drop white space from both ends. -/
def pyStripL (l : List Char) : List Char :=
  ((l.dropWhile pySpace).reverse.dropWhile pySpace).reverse

/-- `str.strip()`. -/
def pyStrip (s : String) : String :=
  String.mk (pyStripL s.data)

/-- `str.lower()` (ASCII). -/
def pyLower (s : String) : String :=
  String.mk (s.data.map Char.toLower)

/-- Helper for `str.split()`: `acc` holds the (reversed) word being
accumulated. -/
def pySplitWsAux : List Char → List Char → List (List Char)
  | [], acc => if acc.isEmpty then [] else [acc.reverse]
  | c :: t, acc =>
    if pySpace c then
      if acc.isEmpty then pySplitWsAux t [] else acc.reverse :: pySplitWsAux t []
    else pySplitWsAux t (c :: acc)

/-- `str.split()` with no separator: split on runs of white space, dropping
empty segments. -/
def pySplitWsL (l : List Char) : List (List Char) :=
  pySplitWsAux l []

/-- `str.split()` producing `String` words. -/
def pySplitWs (s : String) : List String :=
  (pySplitWsL s.data).map String.mk

/-- `str.split(sep)` for a one-character separator, keeping empty
segments (`"".split(sep) == [""]`). -/
def pySplitChar (sep : Char) : List Char → List (List Char)
  | [] => [[]]
  | c :: t =>
    if c = sep then [] :: pySplitChar sep t
    else
      match pySplitChar sep t with
      | h :: r => (c :: h) :: r
      | [] => [[c]]

/-- `str.split(",")`. -/
def pySplitComma (l : List Char) : List (List Char) :=
  pySplitChar ',' l

/-- `str.startswith(p)`. -/
def pyStartsWith (s p : String) : Bool :=
  p.data.isPrefixOf s.data

/-- `str.endswith(p)`. -/
def pyEndsWith (s p : String) : Bool :=
  p.data.isSuffixOf s.data

/-- `s[n:]` (drop the first `n` characters). -/
def pyDrop (s : String) (n : ℕ) : String :=
  String.mk (s.data.drop n)

/-- `len(s)`. -/
def pyLen (s : String) : ℕ :=
  s.data.length

/-- `s.split("/")` as strings. -/
def pySplitSlash (s : String) : List String :=
  (pySplitChar '/' s.data).map String.mk

/-- Substring test: does `pat` occur contiguously inside `l`?  Models
Python's `pat in s`. -/
def containsSub : List Char → List Char → Bool
  | l, pat =>
    if pat.isPrefixOf l then true
    else match l with
      | [] => false
      | _ :: t => containsSub t pat

/-! ### YAML value model

`yaml.safe_load` returns an arbitrary Python object.  `Yaml` models the
fragment relevant to SKILL.md front matter: scalars, sequences and
string-keyed mappings (front-matter keys are strings; non-string mapping
keys would never equal the string field names the parser looks up). -/

inductive Yaml where
  | null : Yaml
  | bool : Bool → Yaml
  | int : Int → Yaml
  | str : String → Yaml
  | list : List Yaml → Yaml
  | map : List (String × Yaml) → Yaml
deriving Repr

/-- Python truthiness of a YAML-decoded value (`None`, `False`, `0`, `""`,
`[]` and `\x7b\x7d` are falsy). -/
def yamlTruthy : Yaml → Bool
  | Yaml.null => false
  | Yaml.bool b => b
  | Yaml.int n => n != 0
  | Yaml.str s => s != ""
  | Yaml.list xs => !xs.isEmpty
  | Yaml.map kvs => !kvs.isEmpty

/-- Is the value a mapping (`isinstance(v, dict)`)? -/
def Yaml.isMap : Yaml → Bool
  | Yaml.map _ => true
  | _ => false

mutual
/-- Python `repr` of a YAML-decoded value (string-escaping inside `repr`
of nested containers is approximated; no claim depends on it). -/
def Yaml.pyRepr : Yaml → String
  | Yaml.null => "None"
  | Yaml.bool b => if b then "True" else "False"
  | Yaml.int n => toString n
  | Yaml.str s => "'" ++ s ++ "'"
  | Yaml.list xs => "[" ++ Yaml.pyReprList xs ++ "]"
  | Yaml.map kvs => "\x7b" ++ Yaml.pyReprMap kvs ++ "\x7d"

/-- Comma-separated `repr`s of the elements of a list. -/
def Yaml.pyReprList : List Yaml → String
  | [] => ""
  | [x] => Yaml.pyRepr x
  | x :: xs => Yaml.pyRepr x ++ ", " ++ Yaml.pyReprList xs

/-- Comma-separated `repr`s of the entries of a mapping. -/
def Yaml.pyReprMap : List (String × Yaml) → String
  | [] => ""
  | [(k, v)] => "'" ++ k ++ "': " ++ Yaml.pyRepr v
  | (k, v) :: kvs => "'" ++ k ++ "': " ++ Yaml.pyRepr v ++ ", " ++ Yaml.pyReprMap kvs
end

/-- Python `str(v)` for a YAML-decoded value: identity on strings, `repr`
recursively inside containers. -/
def Yaml.pyStr : Yaml → String
  | Yaml.str s => s
  | v => Yaml.pyRepr v

/-- Look a key up in a decoded mapping (`dict.get(k)`). -/
def yamlLookup (kvs : List (String × Yaml)) (k : String) : Option Yaml :=
  (kvs.find? (fun kv => kv.1 == k)).map (fun kv => kv.2)

/-! ### Front-matter regex

`FRONTMATTER_PATTERN = re.compile(r"^---\s*\n(.*?)\n---\s*\n", re.DOTALL)`
used with `.match` (anchored at the start).  The functions below implement
exactly this pattern's backtracking semantics: the two `\s*` are greedy
(longest white-space run first), the group `(.*?)` is lazy (shortest
first), and `re.DOTALL` lets the group span newlines. -/

/-- Match the trailing `\s*\n` greedily at the head of `v`; return the
suffix after the matched newline.  Greedily the regex engine takes the
last `'\n'` inside the maximal white-space run at the head of `v`. -/
def tailWsNl (v : List Char) : Option (List Char) :=
  let w := v.takeWhile pySpace
  match w.reverse.findIdx? (fun c => c == '\n') with
  | some i => some (v.drop (w.length - i))
  | none => none

/-- Lazy scan for `(.*?)\n---\s*\n`: try to close the group at the current
position, otherwise grow it by one character.  Returns the group and the
suffix after the whole match. -/
def lazyScan : List Char → Option (List Char × List Char)
  | [] => none
  | c :: u =>
    match (if c = '\n' && u.take 3 = ['-', '-', '-'] then tailWsNl (u.drop 3)
      else none) with
    | some r => some ([], r)
    | none => (lazyScan u).map (fun p => (c :: p.1, p.2))

/-- After the leading `---`, match greedy `\s*` followed by `\n`, then hand
over to the lazy group; on failure backtrack to the previous newline of
the white-space run. -/
def outerScan (t : List Char) : Option (List Char × List Char) :=
  let w := t.takeWhile pySpace
  let js := ((List.range w.length).filter (fun j => w.get? j == some '\n')).reverse
  js.findSome? (fun j => lazyScan (t.drop (j + 1)))

/-- `FRONTMATTER_PATTERN.match(raw)`: `some (group1, rest)` where `group1`
is the front-matter block and `rest` is the input after the match end. -/
def matchFM (s : List Char) : Option (List Char × List Char) :=
  if s.take 3 = ['-', '-', '-'] then outerScan (s.drop 3) else none

/-! ### `SkillParser` (src/core/parser.py) -/

/-- `ParsedSkill`: front matter split from body.  `name`, `description` and
`version` hold the raw decoded YAML values (`frontmatter.get(...)`). -/
structure ParsedSkill where
  name : Yaml
  description : Option Yaml
  version : Option Yaml
  allowed_tools : Option (List String)
  content : String
  raw : String
  metadata : List (String × Yaml)
deriving Repr

/-- `SkillParser._parse_allowed_tools`: a decoded list is stringified and
stripped with falsy entries dropped; a string is split on commas with
segments stripped and empties dropped; `None` and any other type yield
`None`.  (A YAML `null` value reaches the Python code as the object
`None`, hence the first branch.) -/
def SkillParser.parseAllowedTools : Option Yaml → Option (List String)
  | none => none
  | some Yaml.null => none
  | some (Yaml.list vs) =>
    some ((vs.filter yamlTruthy).map (fun v => pyStrip (Yaml.pyStr v)))
  | some (Yaml.str s) =>
    some (((pySplitComma s.data).map (fun t => String.mk (pyStripL t))).filter
      (fun t => t ≠ ""))
  | some _ => none

/-- The four recognised front-matter keys. -/
def standardFields : List String :=
  ["name", "description", "version", "allowed-tools"]

/-- `SkillParser.parse`.  `yamlLoad` is the abstract `yaml.safe_load`.
Mirrors the source: empty/white-space-only input raises; no front-matter
match means the whole (stripped) input is the body with name `"unknown"`;
a decoded falsy value is coerced to the empty mapping (`or \x7b\x7d`); a
truthy non-mapping raises. -/
def SkillParser.parse (yamlLoad : String → Except String Yaml)
    (raw_content : String) : Except String ParsedSkill :=
  if pyStrip raw_content = "" then Except.error "Empty content"
  else
    match matchFM raw_content.data with
    | none =>
      Except.ok
        { name := Yaml.str "unknown"
          description := none
          version := none
          allowed_tools := none
          content := pyStrip raw_content
          raw := raw_content
          metadata := [] }
    | some (g, rest) =>
      match yamlLoad (String.mk g) with
      | Except.error e => Except.error ("Invalid YAML frontmatter: " ++ e)
      | Except.ok y =>
        let fm := if yamlTruthy y then y else Yaml.map []
        match fm with
        | Yaml.map kvs =>
          Except.ok
            { name := (yamlLookup kvs "name").getD (Yaml.str "unknown")
              description := yamlLookup kvs "description"
              version := yamlLookup kvs "version"
              allowed_tools := SkillParser.parseAllowedTools
                (yamlLookup kvs "allowed-tools")
              content := String.mk (pyStripL rest)
              raw := raw_content
              metadata := kvs.filter (fun kv => !standardFields.contains kv.1) }
        | _ => Except.error "Frontmatter must be a dictionary"

/-! ### `InMemoryCache` (src/cache/memory.py)

Wall-clock instants and TTLs are modelled over `ℤ` (an exact,
kernel-computable stand-in for the `time.time()` float clock: every
comparison the code performs is order-faithful at integral instants);
every operation takes the current instant `now` as an explicit
argument.  The store is the insertion-ordered association list
underlying the Python `dict` (`dict` preserves insertion order; assigning
to an existing key keeps its position, a new key is appended). -/

/-- A cache entry: value plus optional absolute expiry instant. -/
structure CacheEntry' (α : Type) where
  value : α
  expires_at : Option ℤ
deriving Repr, DecidableEq

/-- `CacheEntry.is_expired`: `time.time() > expires_at`. -/
def CacheEntry'.is_expired (e : CacheEntry' α) (now : ℤ) : Bool :=
  match e.expires_at with
  | none => false
  | some t => now > t

/-- The five statistics counters of `CacheStats`. -/
structure CacheStats where
  hits : ℕ
  misses : ℕ
  sets : ℕ
  deletes : ℕ
  evictions : ℕ
deriving Repr, DecidableEq

/-- The mutable state of an `InMemoryCache`. -/
structure CacheState (α : Type) where
  store : List (String × CacheEntry' α)
  default_ttl : ℤ
  max_size : Option ℕ
  stats : CacheStats
deriving Repr

/-- `self._store.get(key)`. -/
def storeLookup (l : List (String × CacheEntry' α)) (key : String) :
    Option (CacheEntry' α) :=
  (l.find? (fun kv => kv.1 == key)).map (fun kv => kv.2)

/-- `del self._store[key]` (keys are unique in a `dict`). -/
def storeErase (l : List (String × CacheEntry' α)) (key : String) :
    List (String × CacheEntry' α) :=
  l.eraseP (fun kv => kv.1 == key)

/-- `self._store[key] = entry`: overwrite in place if present (keeping the
key's insertion position), otherwise append. -/
def storeSet (l : List (String × CacheEntry' α)) (key : String)
    (e : CacheEntry' α) : List (String × CacheEntry' α) :=
  if (l.find? (fun kv => kv.1 == key)).isSome then
    l.map (fun kv => if kv.1 == key then (key, e) else kv)
  else l ++ [(key, e)]

/-- `InMemoryCache.get`: expired entries are deleted on access and count
as both a miss and an eviction. -/
def InMemoryCache.get (st : CacheState α) (now : ℤ) (key : String) :
    Option α × CacheState α :=
  match storeLookup st.store key with
  | none =>
    (none, { st with stats := { st.stats with misses := st.stats.misses + 1 } })
  | some e =>
    if e.is_expired now then
      (none,
        { st with
          store := storeErase st.store key
          stats := { st.stats with
            misses := st.stats.misses + 1
            evictions := st.stats.evictions + 1 } })
    else
      (some e.value,
        { st with stats := { st.stats with hits := st.stats.hits + 1 } })

/-- `InMemoryCache.exists` (named `existsOp` here; `exists` is reserved in
Lean): an expired entry is deleted and counted as an eviction — the miss
counter is not touched. -/
def InMemoryCache.existsOp (st : CacheState α) (now : ℤ) (key : String) :
    Bool × CacheState α :=
  match storeLookup st.store key with
  | none => (false, st)
  | some e =>
    if e.is_expired now then
      (false,
        { st with
          store := storeErase st.store key
          stats := { st.stats with evictions := st.stats.evictions + 1 } })
    else (true, st)

/-- Truthiness of `self._max_size` (`None` and `0` are falsy). -/
def maxSizeTruthy : Option ℕ → Bool
  | none => false
  | some m => m != 0

/-- `InMemoryCache.set`: when `max_size` is truthy, the store is full and
the key is new, the single oldest-inserted entry (the first item of the
`dict`) is evicted before inserting. -/
def InMemoryCache.set (st : CacheState α) (now : ℤ) (key : String) (value : α)
    (ttl : Option ℤ) : CacheState α :=
  let t := ttl.getD st.default_ttl
  let expires_at : Option ℤ := if t > 0 then some (now + t) else none
  let doEvict := maxSizeTruthy st.max_size &&
    st.store.length ≥ st.max_size.getD 0 &&
    (storeLookup st.store key).isNone
  let store₁ := if doEvict then st.store.tail else st.store
  let evictions₁ := if doEvict then st.stats.evictions + 1 else st.stats.evictions
  { st with
    store := storeSet store₁ key { value := value, expires_at := expires_at }
    stats := { st.stats with
      sets := st.stats.sets + 1
      evictions := evictions₁ } }

/-- `InMemoryCache.delete`. -/
def InMemoryCache.delete (st : CacheState α) (key : String) :
    Bool × CacheState α :=
  match storeLookup st.store key with
  | some _ =>
    (true,
      { st with
        store := storeErase st.store key
        stats := { st.stats with deletes := st.stats.deletes + 1 } })
  | none => (false, st)

/-! ### `GitHubClient` path resolution and URL builders
(src/clients/github.py) -/

/-- Vendor prefixes stripped when building identifier variants
(`prefixes_to_strip`). -/
def prefixesToStrip : List String :=
  ["vercel-", "anthropic-", "openai-", "claude-"]

/-- Identifier variants: the identifier itself, then the identifier with
each matching vendor marker removed, in the fixed order of
`prefixesToStrip`. -/
def idVariants (skill_id : String) : List String :=
  skill_id :: prefixesToStrip.filterMap (fun p =>
    if pyStartsWith skill_id p then some (pyDrop skill_id (pyLen p)) else none)

/-- The fixed priority path templates tried for each variant
(`priority_patterns`). -/
def priorityPatterns (v : String) : List String :=
  [ "skills/" ++ v ++ "/SKILL.md"
  , ".claude/skills/" ++ v ++ "/SKILL.md"
  , ".cursor/skills/" ++ v ++ "/SKILL.md"
  , ".github/skills/" ++ v ++ "/SKILL.md"
  , ".agent/skills/" ++ v ++ "/SKILL.md"
  , ".agents/skills/" ++ v ++ "/SKILL.md"
  , v ++ "/SKILL.md" ]

/-- The priority phase of `_find_skill_path`: for each variant in order,
test each template; return on the first exact key hit.  `skill_paths` is
the insertion-ordered key list of the repo tree's SKILL.md map. -/
def findPriority (skill_paths : List String) (skill_id : String) :
    Option String :=
  (idVariants skill_id).findSome? (fun v =>
    (priorityPatterns v).find? (fun pat => skill_paths.contains pat))

/-- Fuzzy phase: any path with the variant as one of its `/`-separated
components. -/
def findFuzzy (skill_paths : List String) (skill_id : String) :
    Option String :=
  (idVariants skill_id).findSome? (fun v =>
    skill_paths.find? (fun path => (pySplitSlash path).contains v))

/-- Suffix phase: any path one of whose components is a suffix of the raw
identifier and longer than 5 characters. -/
def findSuffix (skill_paths : List String) (skill_id : String) :
    Option String :=
  skill_paths.find? (fun path =>
    (pySplitSlash path).any (fun part =>
      pyEndsWith skill_id part && pyLen part > 5))

/-- Contains phase: any path whose immediate parent folder ends with
`-variant` or `_variant`, for variants of length at least 4. -/
def findContains (skill_paths : List String) (skill_id : String) :
    Option String :=
  (idVariants skill_id).findSome? (fun v =>
    if pyLen v ≥ 4 then
      skill_paths.find? (fun path =>
        let parts := pySplitSlash path
        decide (parts.length ≥ 2) &&
          (let folder := parts.getD (parts.length - 2) ""
           pyEndsWith folder ("-" ++ v) || pyEndsWith folder ("_" ++ v)))
    else none)

/-- `GitHubClient._find_skill_path`: the four matching phases in order,
then the single-file fallback. -/
def GitHubClient.findSkillPath (skill_paths : List String)
    (skill_id : String) : Option String :=
  match findPriority skill_paths skill_id with
  | some p => some p
  | none =>
    match findFuzzy skill_paths skill_id with
    | some p => some p
    | none =>
      match findSuffix skill_paths skill_id with
      | some p => some p
      | none =>
        match findContains skill_paths skill_id with
        | some p => some p
        | none =>
          if skill_paths.length = 1 then skill_paths.head? else none

/-- `GitHubClient.get_github_url`.  `repoBranch` models
`self._repo_cache.get(source)`: `some branch` when a tree was fetched,
`none` when the key is absent or negatively cached (both give `"main"`). -/
def GitHubClient.getGithubUrl (repoBranch : String → Option String)
    (source skill_id : String) : String :=
  let branch := (repoBranch source).getD "main"
  "https://github.com/" ++ source ++ "/tree/" ++ branch ++ "/skills/" ++ skill_id

/-- `GitHubClient.get_skills_sh_url`. -/
def GitHubClient.getSkillsShUrl (source skill_id : String) : String :=
  "https://skills.sh/" ++ source ++ "/" ++ skill_id

/-- The part of a URL after the `https://` scheme marker (the test suite
checks `"//" not in url.replace("https://", "")`; all URLs built above
start with the 8-character marker exactly once). -/
def urlAfterScheme (u : String) : List Char :=
  u.data.drop 8

/-! ### Search sources (src/sources/) -/

/-- `SkillSearchResult` (src/sources/base.py). -/
structure SkillSearchResult where
  id : String
  name : String
  source : String
  source_registry : String
  installs : ℕ
  description : Option String
  url : Option String
deriving Repr, DecidableEq

/-- `SkillSearchResult.unique_key`: `f"{source}/{id}".lower()`. -/
def SkillSearchResult.uniqueKey (r : SkillSearchResult) : String :=
  pyLower (r.source ++ "/" ++ r.id)

/-- `SkillsShSource.REGISTRY_NAME` (src/sources/skillssh.py). -/
def SkillsShSource.REGISTRY_NAME : String := "skills.sh"

/-- `SkillRegistrySource.REGISTRY_NAME` (src/sources/registry.py) — the
static curated registry's tag. -/
def SkillRegistrySource.REGISTRY_NAME : String := "skill-garden"

/-! ### GitHub fetch results (src/clients/github.py) -/

/-- `ReferenceFile`. -/
structure ReferenceFile where
  name : String
  path : String
  content : Option String
  raw_url : Option String
deriving Repr, DecidableEq

/-- `FetchResult` of `GitHubClient.fetch_skill`. -/
structure FetchResult where
  content : Option String
  raw_url : Option String
  skill_dir : Option String
  references : List ReferenceFile
  error : Option String
deriving Repr, DecidableEq

/-- `FetchResult.success`: content is not `None`. -/
def FetchResult.success (r : FetchResult) : Bool :=
  r.content.isSome

/-! ### `Skill` (src/core/models.py)

The pydantic `Skill` model.  Note that it declares **no**
`source_registry` field and `SkillSearchService._build_skill` does not
set one, so `getattr(skill, 'source_registry', None)` in the ranker is
`None` for every skill the pipeline builds; `Skill.getattrSourceRegistry`
below embeds that fact.  `relevance_score` holds the exact value
`float(installs)` assigned at build time (the ranker's reassignment is
modelled by `RelevanceRanker.rankScore`). -/

structure SkillReference where
  name : String
  path : String
  content : Option String
  raw_url : Option String
deriving Repr, DecidableEq

structure Skill where
  id : String
  title : String
  description : Option String
  version : Option String
  allowed_tools : Option (List String)
  source : String
  refs_skills_sh : String
  refs_github : String
  refs_raw : Option String
  install_count : ℕ
  relevance_score : ℚ
  content : Option String
  raw_content : Option String
  metadata : List (String × Yaml)
  references : List SkillReference
  fetch_error : Option String
deriving Repr

/-- `getattr(skill, 'source_registry', None)`: the pydantic `Skill` class
declares no such field (see `models.py`) and nothing assigns one, so the
lookup always returns the default `None`. -/
def Skill.getattrSourceRegistry (_ : Skill) : Option String := none

/-- Truthiness of an optional string (`None` and `""` are falsy). -/
def optStrTruthy : Option String → Bool
  | none => false
  | some s => s != ""

/-! ### `SkillSearchService` (src/core/service.py) -/

/-- The cached dict for a skill key: `content`/`raw_url` always stored,
`error` only stored by the failure memo (`cached.get("error")` of the
success memo is `None`, modelled by `error := none`). -/
structure CachedVal where
  content : Option String
  raw_url : Option String
  error : Option String
deriving Repr, DecidableEq

/-- `SkillSearchService._cache_key`. -/
def SkillSearchService.cacheKey (source skill_id : String) : String :=
  "skill:" ++ source ++ ":" ++ skill_id

/-- `SkillSearchService._fetch_and_cache_content`.  `gh` is the abstract
`GitHubClient.fetch_skill`; `cache_ttl` is `self._cache_ttl`.  Returns
`(content, raw_url, references, error)` and the updated cache.  A cache
hit (of either a success memo or a failure memo) returns the stored
content and raw URL with `error = None`; a fresh failure is memoized for
300 seconds and returns the fetch error. -/
def SkillSearchService.fetchAndCacheContent (gh : String → String → FetchResult)
    (st : CacheState CachedVal) (now : ℤ) (cache_ttl : ℤ)
    (source skill_id : String) (include_references : Bool) :
    (Option String × Option String × List SkillReference × Option String) ×
      CacheState CachedVal :=
  let key := SkillSearchService.cacheKey source skill_id
  let res := InMemoryCache.get st now key
  match res.1, include_references with
  | some c, false => ((c.content, c.raw_url, [], none), res.2)
  | _, _ =>
    let r := gh source skill_id
    if r.success then
      let st₂ := InMemoryCache.set res.2 now key
        { content := r.content, raw_url := r.raw_url, error := none }
        (some cache_ttl)
      ((r.content, r.raw_url,
        r.references.map (fun rf =>
          { name := rf.name, path := rf.path, content := rf.content
            raw_url := rf.raw_url }),
        none), st₂)
    else
      let st₂ := InMemoryCache.set res.2 now key
        { content := none, raw_url := none, error := r.error } (some 300)
      ((none, none, [], r.error), st₂)

/-- Lift the string-typed YAML scalars `_build_skill` forwards into the
`str`-typed pydantic fields (a truthy non-string value would fail
pydantic validation and is outside the modelled fragment). -/
def yamlOptStr : Option Yaml → Option String
  | some (Yaml.str s) => some s
  | _ => none

/-- Truthiness of an optional YAML value. -/
def yamlOptTruthy : Option Yaml → Bool
  | none => false
  | some y => yamlTruthy y

/-- `SkillSearchService._build_skill`.  `repoBranch` is the GitHub
client's branch cache (for the URL builders). -/
def SkillSearchService.buildSkill (repoBranch : String → Option String)
    (search_result : SkillSearchResult) (parsed : Option ParsedSkill)
    (raw_url : Option String) (references : List SkillReference)
    (fetch_error : Option String) (include_raw : Bool) : Skill :=
  let refs_sh := GitHubClient.getSkillsShUrl search_result.source search_result.id
  let refs_gh := GitHubClient.getGithubUrl repoBranch search_result.source
    search_result.id
  let srDesc : Option String :=
    match search_result.description with
    | some s => if s ≠ "" then some s else none
    | none => none
  let description : Option String :=
    match parsed with
    | some p => if yamlOptTruthy p.description then yamlOptStr p.description
        else srDesc
    | none => srDesc
  match parsed with
  | some p =>
    { id := search_result.id
      title := if yamlTruthy p.name then
          (match p.name with | Yaml.str s => s | _ => "")
        else search_result.name
      description := description
      version := yamlOptStr p.version
      allowed_tools := p.allowed_tools
      source := search_result.source
      refs_skills_sh := refs_sh
      refs_github := refs_gh
      refs_raw := raw_url
      install_count := search_result.installs
      relevance_score := (search_result.installs : ℚ)
      content := some p.content
      raw_content := if include_raw then some p.raw else none
      metadata := p.metadata
      references := references
      fetch_error := none }
  | none =>
    { id := search_result.id
      title := search_result.name
      description := description
      version := none
      allowed_tools := none
      source := search_result.source
      refs_skills_sh := refs_sh
      refs_github := refs_gh
      refs_raw := raw_url
      install_count := search_result.installs
      relevance_score := (search_result.installs : ℚ)
      content := none
      raw_content := none
      metadata := []
      references := references
      fetch_error := fetch_error }

/-- `SkillSearchService._process_search_result`: fetch (unless content is
not requested), parse on truthy content (a `ParseError` downgrades to a
fetch error), then build. -/
def SkillSearchService.processSearchResult (gh : String → String → FetchResult)
    (repoBranch : String → Option String)
    (yamlLoad : String → Except String Yaml) (st : CacheState CachedVal)
    (now : ℤ) (cache_ttl : ℤ) (result : SkillSearchResult)
    (include_content include_raw include_references : Bool) :
    Skill × CacheState CachedVal :=
  if ¬include_content then
    (SkillSearchService.buildSkill repoBranch result none none [] none
      include_raw, st)
  else
    let fr := SkillSearchService.fetchAndCacheContent gh st now cache_ttl
      result.source result.id include_references
    let content := fr.1.1
    let raw_url := fr.1.2.1
    let references := fr.1.2.2.1
    let error := fr.1.2.2.2
    let pe : Option ParsedSkill × Option String :=
      match content with
      | some c =>
        if c ≠ "" then
          match SkillParser.parse yamlLoad c with
          | Except.ok p => (some p, error)
          | Except.error e => (none, some ("Parse error: " ++ e))
        else (none, error)
      | none => (none, error)
    (SkillSearchService.buildSkill repoBranch result pe.1 raw_url references
      pe.2 include_raw, fr.2)

/-- One step of the deduplication loop in
`SkillSearchService._search_all_sources`: a new key is appended; a seen
key is overwritten only by a result whose registry is `"skills.sh"`. -/
def dedupStep (seen : List (String × SkillSearchResult))
    (r : SkillSearchResult) : List (String × SkillSearchResult) :=
  let key := r.uniqueKey
  if (seen.find? (fun kv => kv.1 == key)).isNone then seen ++ [(key, r)]
  else if r.source_registry == "skills.sh" then
    seen.map (fun kv => if kv.1 == key then (key, r) else kv)
  else seen

/-- Stable descending comparison on install counts, as used by
`deduplicated.sort(key=lambda r: r.installs, reverse=True)`. -/
def installsDescLe (a b : SkillSearchResult) : Bool :=
  b.installs ≤ a.installs

/-- `SkillSearchService._search_all_sources` after the per-source
searches: `lists` holds the per-source result lists (failed sources
already filtered out, in source order).  Deduplicate, sort by install
count descending (stable), truncate to `limit`. -/
def SkillSearchService.searchAllSources
    (lists : List (List SkillSearchResult)) (limit : ℕ) :
    List SkillSearchResult :=
  let seen := lists.flatten.foldl dedupStep []
  let deduplicated := seen.map (fun kv => kv.2)
  (deduplicated.mergeSort installsDescLe).take limit

/-! ### `RelevanceRanker` (src/ranking/relevance.py)

Query-match fractions are exact field arithmetic on floats and are
modelled over `ℚ`; the popularity signal uses `math.log10` and is
modelled over `ℝ`. -/

/-- `RelevanceRanker.CONTENT_WEIGHT`. -/
def RelevanceRanker.CONTENT_WEIGHT : ℝ := 40

/-- `RelevanceRanker.REFERENCES_WEIGHT`. -/
def RelevanceRanker.REFERENCES_WEIGHT : ℝ := 15

/-- `RelevanceRanker.QUERY_MATCH_WEIGHT`. -/
def RelevanceRanker.QUERY_MATCH_WEIGHT : ℝ := 30

/-- `RelevanceRanker.POPULARITY_WEIGHT`. -/
def RelevanceRanker.POPULARITY_WEIGHT : ℝ := 15

/-- `RelevanceRanker.CURATED_BOOST`. -/
def RelevanceRanker.CURATED_BOOST : ℝ := 8

/-- `RelevanceRanker.CURATED_REGISTRY`: the registry tag the curated boost
looks for. -/
def RelevanceRanker.CURATED_REGISTRY : String := "skyll"

/-- `RelevanceRanker._normalize`: lowercase and collapse `-`, `_`, `/` to
spaces. -/
def RelevanceRanker.normalize (s : String) : String :=
  String.mk (s.data.map (fun c =>
    let d := c.toLower
    if d = '-' || d = '_' || d = '/' then ' ' else d))

/-- `RelevanceRanker._to_words`: the word set of normalized text (modelled
as the word list; only membership is ever used). -/
def RelevanceRanker.toWords (s : String) : List String :=
  pySplitWs (RelevanceRanker.normalize s)

/-- `RelevanceRanker._word_match_count`. -/
def RelevanceRanker.wordMatchCount (terms : List String)
    (ws : List String) : ℕ :=
  (terms.filter (fun t => ws.contains t)).length

/-- `RelevanceRanker._all_terms_in`. -/
def RelevanceRanker.allTermsIn (terms : List String) (ws : List String) :
    Bool :=
  terms.all (fun t => ws.contains t)

/-- Python `round(x, 2)` over the real model (half-to-even tie-breaking on
binary floats differs from `round` only on exact half-cent values, which
no score in this development produces). -/
noncomputable def pyRound2 (x : ℝ) : ℝ :=
  ((round (x * 100) : ℤ) : ℝ) / 100

/-- `RelevanceRanker._compute_query_match` (0–1 fraction). -/
def RelevanceRanker.computeQueryMatch (skill : Skill) (query : String) : ℚ :=
  if query = "" then 0
  else
    let query_terms := pySplitWs (pyStrip (pyLower query))
    let query_words := query_terms
    let id_words := RelevanceRanker.toWords skill.id
    let title_words := RelevanceRanker.toWords skill.title
    let desc_words := RelevanceRanker.toWords (skill.description.getD "")
    let skill_id_normalized := RelevanceRanker.normalize skill.id
    let query_normalized := pyStrip (pyLower query)
    if query_normalized = skill_id_normalized ∨
        query_normalized = pyLower skill.id then 1
    else if RelevanceRanker.allTermsIn query_terms id_words then 9/10
    else if RelevanceRanker.allTermsIn id_words query_words then 17/20
    else if title_words ≠ [] ∧
        RelevanceRanker.allTermsIn query_terms title_words then 4/5
    else
      let id_title_words := id_words ++ title_words
      let m_it := RelevanceRanker.wordMatchCount query_terms id_title_words
      let n := query_terms.length
      let best₁ : ℚ :=
        if m_it = n then 3/4
        else if 0 < m_it then
          let id_title_score : ℚ := (1/2) * ((m_it : ℚ) / (n : ℚ))
          let m_d := RelevanceRanker.wordMatchCount query_terms desc_words
          let desc_boost : ℚ :=
            if desc_words ≠ [] ∧ 0 < m_d then (1/5) * ((m_d : ℚ) / (n : ℚ))
            else 0
          max 0 (min (id_title_score + desc_boost) (7/10))
        else 0
      let best₂ : ℚ :=
        if desc_words ≠ [] then
          let m_d := RelevanceRanker.wordMatchCount query_terms desc_words
          if m_d = n then max best₁ (7/10)
          else if 0 < m_d then max best₁ ((7/20) * ((m_d : ℚ) / (n : ℚ)))
          else best₁
        else best₁
      let best₃ : ℚ :=
        if optStrTruthy skill.content ∧ best₂ < 3/20 then
          let cw := RelevanceRanker.toWords
            (String.mk ((skill.content.getD "").data.take 2000))
          let m_c := RelevanceRanker.wordMatchCount query_terms cw
          if 0 < m_c then max best₂ ((3/20) * ((m_c : ℚ) / (n : ℚ)))
          else best₂
        else best₂
      best₃

/-- `RelevanceRanker._compute_popularity_score`:
`min(log10(installs + 1) / 4, 1)`, zero for zero installs. -/
noncomputable def RelevanceRanker.popularityScore (install_count : ℕ) : ℝ :=
  if install_count = 0 then 0
  else min (Real.logb 10 ((install_count : ℝ) + 1) / 4) 1

/-- The relevance score `RelevanceRanker.rank` assigns to one skill
(`skill.relevance_score = round(score, 2)`). -/
noncomputable def RelevanceRanker.rankScore (skill : Skill) (query : String)
    (include_references : Bool) : ℝ :=
  let has_content : ℝ := if optStrTruthy skill.content then 1 else 0
  let has_refs : ℝ :=
    if include_references ∧ skill.references ≠ [] then 1 else 0
  let query_match := RelevanceRanker.computeQueryMatch skill query
  let popularity := RelevanceRanker.popularityScore skill.install_count
  let is_curated : ℝ :=
    if skill.getattrSourceRegistry = some RelevanceRanker.CURATED_REGISTRY
    then 1 else 0
  let curated_score :=
    is_curated * RelevanceRanker.CURATED_BOOST * (query_match : ℝ)
  pyRound2
    (has_content * RelevanceRanker.CONTENT_WEIGHT +
      has_refs * RelevanceRanker.REFERENCES_WEIGHT +
      (query_match : ℝ) * RelevanceRanker.QUERY_MATCH_WEIGHT +
      popularity * RelevanceRanker.POPULARITY_WEIGHT +
      curated_score)

/-! ### Concrete instances and auxiliary predicates used by the theorems -/

/-- Is an `Except` result an error? -/
def exceptIsError : Except ε α → Bool
  | Except.error _ => true
  | Except.ok _ => false

/-- The error condition `SkillParser.parse` actually implements for a
matched front-matter block: the YAML fails to load, or it loads to a
*truthy* non-mapping value (falsy values are coerced to the empty mapping
by `or \x7b\x7d` and accepted). -/
def fmBlockRejected (yamlLoad : String → Except String Yaml) (s : String) :
    Bool :=
  match matchFM s.data with
  | none => false
  | some (g, _) =>
    match yamlLoad (String.mk g) with
    | Except.error _ => true
    | Except.ok y => yamlTruthy y && !y.isMap

/-- Table model of `yaml.safe_load` for the concrete documents used in
this file, following PyYAML: `"0"` decodes to the integer `0`,
`"name: test-skill"` to a one-entry mapping, `"name: [invalid yaml"` is a
YAML error (unclosed flow sequence), the empty document decodes to
`None`.  Inputs outside the table are reported as errors and are never
used by the theorems. -/
def yamlLoadModel (s : String) : Except String Yaml :=
  if s = "0" then Except.ok (Yaml.int 0)
  else if s = "name: test-skill" then
    Except.ok (Yaml.map [("name", Yaml.str "test-skill")])
  else if s = "name: [invalid yaml" then
    Except.error "while parsing a flow node: expected the node content"
  else if s = "" then Except.ok Yaml.null
  else Except.error "input outside the modelled yaml table"

/-- `", ".join` on character lists (builds the comma-separated form of a
tool list). -/
def joinCommaSpaceL : List (List Char) → List Char
  | [] => []
  | [t] => t
  | t :: ts => t ++ (',' :: ' ' :: joinCommaSpaceL ts)

/-- `", ".join` on strings. -/
def joinCommaSpace (ts : List String) : String :=
  String.mk (joinCommaSpaceL (ts.map String.data))

/-- A `fetch_skill` stand-in that always fails (repository unreachable). -/
def failingFetch : String → String → FetchResult := fun _ _ =>
  { content := none, raw_url := none, skill_dir := none, references := [],
    error := some "Could not access repository o/r" }

/-- A fresh service cache (24-hour default TTL, unbounded). -/
def svcCache0 : CacheState CachedVal :=
  { store := [], default_ttl := 86400, max_size := none,
    stats := ⟨0, 0, 0, 0, 0⟩ }

/-- The search result driving the C3 scenario. -/
def directResult : SkillSearchResult :=
  ⟨"x", "x", "o/r", "skills.sh", 0, none, none⟩

/-- The service cache after the first (failing) content fetch: it holds
the failure memo that `_fetch_and_cache_content` wrote. -/
def svcCacheAfterFail : CacheState CachedVal :=
  (SkillSearchService.fetchAndCacheContent failingFetch svcCache0 0 86400
    "o/r" "x" false).2

/-- A parsed SKILL.md for the curated-registry skill of the C2 scenario. -/
def parsedReact : ParsedSkill :=
  { name := Yaml.str "react-best-practices", description := none,
    version := none, allowed_tools := none, content := "Use react memo.",
    raw := "raw", metadata := [] }

/-- A search result as produced by the static curated registry source
(`source_registry = SkillRegistrySource.REGISTRY_NAME`). -/
def registryResult : SkillSearchResult :=
  ⟨"react-best-practices", "react-best-practices", "vercel-labs/agent-skills",
    SkillRegistrySource.REGISTRY_NAME, 0, some "React best practices", none⟩

/-- The skill the pipeline builds from `registryResult` after a successful
fetch and parse. -/
def registrySkill : Skill :=
  SkillSearchService.buildSkill (fun _ => none) registryResult
    (some parsedReact) (some "rurl") [] none false

/-- A skill with content, 10000 installs and identifier
`"react-best-practices"` (C7's first scenario). -/
def demoSkill : Skill :=
  { id := "react-best-practices"
    title := "React Best Practices"
    description := some "React performance guidelines"
    version := none
    allowed_tools := none
    source := "vercel-labs/agent-skills"
    refs_skills_sh := ""
    refs_github := ""
    refs_raw := none
    install_count := 10000
    relevance_score := 10000
    content := some "Use react memo."
    raw_content := none
    metadata := []
    references := []
    fetch_error := none }

/-- A skill with no content and no installs (C7's second scenario). -/
def emptySkill : Skill :=
  { demoSkill with
    id := "irrelevant-skill"
    title := "Irrelevant"
    description := none
    install_count := 0
    relevance_score := 0
    content := none }

/-- A cache holding one entry that expired at instant 5 (read at 10 in
the C4 scenarios). -/
def expiredExampleCache : CacheState ℕ :=
  { store := [("k", ⟨7, some 5⟩)], default_ttl := 3600, max_size := none,
    stats := ⟨0, 0, 0, 0, 0⟩ }

/-- An empty capacity-2 cache and the states after setting three distinct
keys at instant 0 (C8's scenario with N = 2). -/
def capCache0 : CacheState ℕ :=
  { store := [], default_ttl := 3600, max_size := some 2,
    stats := ⟨0, 0, 0, 0, 0⟩ }

def capCache1 : CacheState ℕ := InMemoryCache.set capCache0 0 "k1" 1 none

def capCache2 : CacheState ℕ := InMemoryCache.set capCache1 0 "k2" 2 none

def capCache3 : CacheState ℕ := InMemoryCache.set capCache2 0 "k3" 3 none

/-- Marketplace and curated-registry search results colliding on the same
case-insensitive unique key (C5's scenario). -/
def mktResult : SkillSearchResult :=
  ⟨"s1", "s1", "o/r", "skills.sh", 500, none, none⟩

def curatedDup : SkillSearchResult :=
  ⟨"S1", "S1", "O/R", "skill-garden", 0, none, none⟩

def mktResult2 : SkillSearchResult :=
  ⟨"s2", "s2", "o/r", "skills.sh", 100, none, none⟩

/-- The accumulator has an entry for key `k`. -/
def hasKey (seen : List (String × SkillSearchResult)) (k : String) : Prop :=
  ∃ kv ∈ seen, kv.1 = k

/-- Every entry at key `k` is marketplace-sourced. -/
def mktAt (seen : List (String × SkillSearchResult)) (k : String) : Prop :=
  ∀ kv ∈ seen, kv.1 = k → kv.2.source_registry = "skills.sh"

/-! ## Theorems -/

/-- Python `round(·, 2)` is the identity on integral values. -/
theorem pyRound2_intCast (n : ℤ) : pyRound2 ((n : ℝ)) = n := by
  unfold pyRound2
  rw [show ((n : ℝ) * 100) = ((n * 100 : ℤ) : ℝ) by push_cast; ring,
    round_intCast]
  push_cast
  ring

/-- Erasing a key from a store with no duplicate keys removes it from
lookup range. -/
theorem storeLookup_erase_self {α : Type} (l : List (String × CacheEntry' α))
    (key : String) (hnd : (l.map Prod.fst).Nodup) :
    storeLookup (storeErase l key) key = none := by
  induction l with
  | nil => rfl
  | cons kv t ih =>
    simp only [List.map_cons, List.nodup_cons] at hnd
    by_cases h : kv.1 == key
    · have hk : kv.1 = key := eq_of_beq h
      have hfind : List.find? (fun kv => kv.1 == key) t = none := by
        rw [List.find?_eq_none]
        intro x hx hbeq
        exact hnd.1 (by rw [hk, ← eq_of_beq hbeq]; exact List.mem_map_of_mem _ hx)
      simp only [storeErase, List.eraseP_cons, h, cond_true, storeLookup, hfind,
        Option.map_none']
    · have h2 := ih hnd.2
      simp only [storeErase, List.eraseP_cons, h, cond_false]
      simp only [storeErase] at h2
      simpa [storeLookup, List.find?_cons, h] using h2

/-- C1: the URL builders do not degrade gracefully on an empty repository
reference: `get_github_url("", "simple-skill")` and
`get_skills_sh_url("", "simple-skill")` interpolate the empty source
directly, emitting URLs that contain a double slash after the scheme and
performing no owner/repo recovery or search-URL fallback (contradicting
the repository's own tests in `tests/test_url_generation.py`). -/
theorem C1_url_builders_emit_double_slash :
    GitHubClient.getGithubUrl (fun _ => none) "" "simple-skill" =
      "https://github.com//tree/main/skills/simple-skill" ∧
    GitHubClient.getSkillsShUrl "" "simple-skill" =
      "https://skills.sh//simple-skill" ∧
    containsSub (urlAfterScheme
      (GitHubClient.getGithubUrl (fun _ => none) "" "simple-skill"))
      ['/', '/'] = true ∧
    containsSub (urlAfterScheme
      (GitHubClient.getSkillsShUrl "" "simple-skill")) ['/', '/'] = true := by
  refine ⟨rfl, rfl, by decide, by decide⟩

/-- C2: the curated-registry boost can never fire on a pipeline-built
skill: the static registry tags its results `"skill-garden"` while the
ranker compares against `"skyll"`, and the pydantic `Skill` model does
not even carry a `source_registry` attribute, so a registry-sourced
skill with a perfect query match (fraction 1) scores 70
(40 content + 30 query match), not the boosted 78 the claim requires. -/
theorem C2_curated_boost_never_applies :
    SkillRegistrySource.REGISTRY_NAME ≠ RelevanceRanker.CURATED_REGISTRY ∧
    registryResult.source_registry = SkillRegistrySource.REGISTRY_NAME ∧
    registrySkill.getattrSourceRegistry = none ∧
    RelevanceRanker.computeQueryMatch registrySkill "react-best-practices" = 1 ∧
    RelevanceRanker.rankScore registrySkill "react-best-practices" false = 70 := by
  refine ⟨by decide, rfl, rfl, by decide, ?_⟩
  have hqm : RelevanceRanker.computeQueryMatch registrySkill
      "react-best-practices" = 1 := by decide
  have hct : optStrTruthy registrySkill.content = true := by decide
  have hic : registrySkill.install_count = 0 := by decide
  have hpop : RelevanceRanker.popularityScore registrySkill.install_count = 0 := by
    rw [hic]; rfl
  unfold RelevanceRanker.rankScore
  rw [hqm, hct, hpop]
  simp only [Skill.getattrSourceRegistry, if_true, reduceCtorEq, if_false,
    false_and]
  rw [show ((1 : ℚ) : ℝ) = (1 : ℝ) by norm_num]
  have h70 : (1 * RelevanceRanker.CONTENT_WEIGHT +
      0 * RelevanceRanker.REFERENCES_WEIGHT +
      1 * RelevanceRanker.QUERY_MATCH_WEIGHT +
      0 * RelevanceRanker.POPULARITY_WEIGHT +
      0 * RelevanceRanker.CURATED_BOOST * 1 : ℝ) = ((70 : ℤ) : ℝ) := by
    simp only [RelevanceRanker.CONTENT_WEIGHT, RelevanceRanker.REFERENCES_WEIGHT,
      RelevanceRanker.QUERY_MATCH_WEIGHT, RelevanceRanker.POPULARITY_WEIGHT,
      RelevanceRanker.CURATED_BOOST]
    norm_num
  rw [h70, pyRound2_intCast]
  norm_num


/-- C3: the failure-memoization path violates the content/fetch_error
invariant.  After a first failing fetch caches the error memo, a second
`search` pass over the same skill (content fetching enabled) is served
from the cache and `_fetch_and_cache_content` returns the literal `None`
for the error instead of `cached.get("error")`; the assembled skill then
has `content = None` **and** `fetch_error = None`. -/
theorem C3_memoized_failure_yields_both_null :
    (SkillSearchService.fetchAndCacheContent failingFetch svcCache0 0 86400
      "o/r" "x" false).1.2.2.2 = some "Could not access repository o/r" ∧
    (SkillSearchService.processSearchResult failingFetch (fun _ => none)
      yamlLoadModel svcCacheAfterFail 1 86400 directResult true false
      false).1.content = none ∧
    (SkillSearchService.processSearchResult failingFetch (fun _ => none)
      yamlLoadModel svcCacheAfterFail 1 86400 directResult true false
      false).1.fetch_error = none := by
  refine ⟨by decide, by decide, by decide⟩

/-- C4 counterexample: reading an expired entry through `exists` does not
increment the miss counter (the claim says every expired first read
counts as both a miss and an eviction). -/
theorem C4_exists_read_counts_no_miss :
    (storeLookup expiredExampleCache.store "k").isSome = true ∧
    CacheEntry'.is_expired ⟨7, some 5⟩ (10 : ℤ) = true ∧
    (InMemoryCache.existsOp expiredExampleCache 10 "k").1 = false ∧
    (InMemoryCache.existsOp expiredExampleCache 10 "k").2.stats.evictions =
      expiredExampleCache.stats.evictions + 1 ∧
    ¬((InMemoryCache.existsOp expiredExampleCache 10 "k").2.stats.misses =
      expiredExampleCache.stats.misses + 1) := by
  refine ⟨by decide, by decide, by decide, by decide, by decide⟩

/-- C4 (amended): on the first read of an expired entry, `get` deletes
it, counts both a miss and an eviction and returns absent, while
`exists` deletes it, counts **only** an eviction (leaving the miss
counter unchanged) and returns false. -/
theorem C4_expired_entry_lazy_deletion {α : Type} (st : CacheState α)
    (now : ℤ) (key : String) (e : CacheEntry' α)
    (hnd : (st.store.map Prod.fst).Nodup)
    (hl : storeLookup st.store key = some e)
    (he : e.is_expired now = true) :
    (InMemoryCache.get st now key).1 = none ∧
    (InMemoryCache.get st now key).2.stats.misses = st.stats.misses + 1 ∧
    (InMemoryCache.get st now key).2.stats.evictions =
      st.stats.evictions + 1 ∧
    storeLookup (InMemoryCache.get st now key).2.store key = none ∧
    (InMemoryCache.existsOp st now key).1 = false ∧
    (InMemoryCache.existsOp st now key).2.stats.evictions =
      st.stats.evictions + 1 ∧
    (InMemoryCache.existsOp st now key).2.stats.misses = st.stats.misses ∧
    storeLookup (InMemoryCache.existsOp st now key).2.store key = none := by
  unfold InMemoryCache.get InMemoryCache.existsOp
  rw [hl]
  simp [he, storeLookup_erase_self _ _ hnd]

/-- C4 amended-claim witness at a concrete expired entry. -/
theorem C4_expired_entry_lazy_deletion_witness :
    (InMemoryCache.get expiredExampleCache 10 "k").1 = none ∧
    (InMemoryCache.get expiredExampleCache 10 "k").2.stats.misses =
      expiredExampleCache.stats.misses + 1 ∧
    (InMemoryCache.get expiredExampleCache 10 "k").2.stats.evictions =
      expiredExampleCache.stats.evictions + 1 ∧
    storeLookup (InMemoryCache.get expiredExampleCache 10 "k").2.store "k"
      = none ∧
    (InMemoryCache.existsOp expiredExampleCache 10 "k").1 = false ∧
    (InMemoryCache.existsOp expiredExampleCache 10 "k").2.stats.evictions =
      expiredExampleCache.stats.evictions + 1 ∧
    (InMemoryCache.existsOp expiredExampleCache 10 "k").2.stats.misses =
      expiredExampleCache.stats.misses ∧
    storeLookup (InMemoryCache.existsOp expiredExampleCache 10 "k").2.store
      "k" = none :=
  C4_expired_entry_lazy_deletion expiredExampleCache 10 "k" ⟨7, some 5⟩
    (by decide) (by decide) (by decide)

/-- Overwriting an existing key keeps the store length. -/
theorem storeSet_length_found {α : Type} (l : List (String × CacheEntry' α))
    (key : String) (e : CacheEntry' α)
    (h : (l.find? (fun kv => kv.1 == key)).isSome = true) :
    (storeSet l key e).length = l.length := by
  simp [storeSet, h]

/-- Inserting a fresh key appends one entry. -/
theorem storeSet_length_notfound {α : Type} (l : List (String × CacheEntry' α))
    (key : String) (e : CacheEntry' α)
    (h : l.find? (fun kv => kv.1 == key) = none) :
    (storeSet l key e).length = l.length + 1 := by
  simp [storeSet, h]

/-- Overwriting an existing key leaves the key sequence unchanged. -/
theorem storeSet_map_fst_found {α : Type} (l : List (String × CacheEntry' α))
    (key : String) (e : CacheEntry' α)
    (h : (l.find? (fun kv => kv.1 == key)).isSome = true) :
    (storeSet l key e).map Prod.fst = l.map Prod.fst := by
  simp only [storeSet, h, if_pos, List.map_map]
  apply List.map_congr_left
  intro kv _
  by_cases hk : kv.1 = key
  · simp [hk]
  · simp [hk]

/-- A predicate finding nothing in a list finds nothing in its tail. -/
theorem find?_tail_none {α : Type} (p : α → Bool) (l : List α)
    (h : l.find? p = none) : l.tail.find? p = none := by
  rw [List.find?_eq_none] at *
  intro x hx
  exact h x (List.mem_of_mem_tail hx)

/-- C8: with a maximum entry count `N ≥ 1` configured, `set` preserves the
capacity bound; a `set` on a new key with the store full evicts exactly
the oldest-inserted entry (the head of the insertion order) and counts
one eviction; a `set` on an already-present key evicts nothing; and in
the concrete N = 2 run, after setting three distinct keys the
first-inserted key is unreadable while the other two remain. -/
theorem C8_capacity_eviction {α : Type} :
    (∀ (st : CacheState α) (now : ℤ) (key : String) (value : α)
      (ttl : Option ℤ) (N : ℕ), st.max_size = some N → 0 < N →
      st.store.length ≤ N →
      (InMemoryCache.set st now key value ttl).store.length ≤ N) ∧
    (∀ (st : CacheState α) (now : ℤ) (key : String) (value : α)
      (ttl : Option ℤ) (N : ℕ), st.max_size = some N → 0 < N →
      st.store.length = N → storeLookup st.store key = none →
      (InMemoryCache.set st now key value ttl).store.map Prod.fst =
        (st.store.map Prod.fst).tail ++ [key] ∧
      (InMemoryCache.set st now key value ttl).stats.evictions =
        st.stats.evictions + 1 ∧
      (InMemoryCache.set st now key value ttl).store.length = N) ∧
    (∀ (st : CacheState α) (now : ℤ) (key : String) (value : α)
      (ttl : Option ℤ) (e : CacheEntry' α),
      storeLookup st.store key = some e →
      (InMemoryCache.set st now key value ttl).store.map Prod.fst =
        st.store.map Prod.fst ∧
      (InMemoryCache.set st now key value ttl).stats.evictions =
        st.stats.evictions) ∧
    (capCache3.store.map Prod.fst = ["k2", "k3"] ∧
      (InMemoryCache.get capCache3 0 "k1").1 = none ∧
      (InMemoryCache.get capCache3 0 "k2").1 = some 2 ∧
      (InMemoryCache.get capCache3 0 "k3").1 = some 3) := by
  have hfind : ∀ (l : List (String × CacheEntry' α)) (key : String),
      storeLookup l key = none → l.find? (fun kv => kv.1 == key) = none := by
    intro l key h
    unfold storeLookup at h
    cases hf : l.find? (fun kv => kv.1 == key) with
    | none => rfl
    | some kv => rw [hf] at h; simp at h
  refine ⟨?_, ?_, ?_, by decide, by decide, by decide, by decide⟩
  · intro st now key value ttl N hms hN hlen
    unfold InMemoryCache.set
    by_cases hEv : (maxSizeTruthy st.max_size &&
        decide (st.store.length ≥ st.max_size.getD 0) &&
        (storeLookup st.store key).isNone) = true
    · simp only [hEv, if_pos]
      rw [Bool.and_assoc, Bool.and_eq_true, Bool.and_eq_true] at hEv
      have hkey : st.store.find? (fun kv => kv.1 == key) = none := by
        apply hfind
        cases hsl : storeLookup st.store key with
        | none => rfl
        | some e => rw [hsl] at hEv; simp at hEv
      have htail : st.store.tail.find? (fun kv => kv.1 == key) = none :=
        find?_tail_none _ _ hkey
      rw [storeSet_length_notfound _ _ _ htail]
      have : st.store.length ≥ N := by
        have := hEv.2.1
        rw [hms] at this
        simpa using of_decide_eq_true this
      have hpos : st.store.length ≥ 1 := le_trans hN this
      rw [List.length_tail]
      omega
    · simp only [hEv, if_neg, Bool.not_eq_true]
      cases hf : st.store.find? (fun kv => kv.1 == key) with
      | none =>
        rw [storeSet_length_notfound _ _ _ hf]
        -- not evicting with a fresh key means the store was not full
        rw [Bool.and_assoc, Bool.and_eq_true, Bool.and_eq_true] at hEv
        push_neg at hEv
        have hms' : maxSizeTruthy st.max_size = true := by
          rw [hms]; simp [maxSizeTruthy]; omega
        have hnone : (storeLookup st.store key).isNone = true := by
          unfold storeLookup
          rw [hf]; rfl
        have hlt : ¬(st.store.length ≥ st.max_size.getD 0) := by
          intro hge
          exact hEv hms' (by simpa using hge) hnone
        rw [hms] at hlt
        simp at hlt
        omega
      | some kv =>
        rw [storeSet_length_found _ _ _ (by rw [hf]; rfl)]
        exact hlen
  · intro st now key value ttl N hms hN hlen hkey
    have hkf : st.store.find? (fun kv => kv.1 == key) = none := hfind _ _ hkey
    have hEv : (maxSizeTruthy st.max_size &&
        decide (st.store.length ≥ st.max_size.getD 0) &&
        (storeLookup st.store key).isNone) = true := by
      rw [hms, hkey]
      simp [maxSizeTruthy, hlen]
      omega
    have htail : st.store.tail.find? (fun kv => kv.1 == key) = none :=
      find?_tail_none _ _ hkf
    unfold InMemoryCache.set
    refine ⟨?_, ?_, ?_⟩
    · simp [hEv, storeSet, htail, List.map_tail]
    · simp [hEv]
    · simp only [hEv, if_true]
      rw [storeSet_length_notfound _ _ _ htail, List.length_tail]
      omega
  · intro st now key value ttl e hl
    have hf : (st.store.find? (fun kv => kv.1 == key)).isSome = true := by
      unfold storeLookup at hl
      cases hff : st.store.find? (fun kv => kv.1 == key) with
      | none => rw [hff] at hl; simp at hl
      | some kv => rfl
    have hEv : (maxSizeTruthy st.max_size &&
        decide (st.store.length ≥ st.max_size.getD 0) &&
        (storeLookup st.store key).isNone) = false := by
      rw [hl]
      simp
    unfold InMemoryCache.set
    refine ⟨?_, ?_⟩
    · simp only [hEv, Bool.false_eq_true, if_false]
      exact storeSet_map_fst_found _ _ _ hf
    · simp [hEv]

/-- C8 witness: the general parts applied to the concrete capacity-2 run
(the invariant at `capCache2`, the oldest-eviction shape of the third
`set`, and no eviction when overwriting a present key). -/
theorem C8_capacity_eviction_witness :
    (InMemoryCache.set capCache2 0 "k3" 3 none).store.length ≤ 2 ∧
    ((InMemoryCache.set capCache2 0 "k3" 3 none).store.map Prod.fst =
      (capCache2.store.map Prod.fst).tail ++ ["k3"] ∧
     (InMemoryCache.set capCache2 0 "k3" 3 none).stats.evictions =
      capCache2.stats.evictions + 1 ∧
     (InMemoryCache.set capCache2 0 "k3" 3 none).store.length = 2) ∧
    ((InMemoryCache.set capCache2 0 "k2" 9 none).store.map Prod.fst =
      capCache2.store.map Prod.fst ∧
     (InMemoryCache.set capCache2 0 "k2" 9 none).stats.evictions =
      capCache2.stats.evictions) :=
  ⟨C8_capacity_eviction.1 capCache2 0 "k3" 3 none 2 (by decide) (by decide)
      (by decide),
   C8_capacity_eviction.2.1 capCache2 0 "k3" 3 none 2 (by decide) (by decide)
      (by decide) (by decide),
   C8_capacity_eviction.2.2.1 capCache2 0 "k2" 9 none ⟨2, some 3600⟩
      (by decide)⟩

/-- Scanning a concatenation of candidate lists for the first hit equals
scanning each list in turn. -/
theorem find?_flatMap_eq_findSome? {α β : Type} (L : List α) (f : α → List β)
    (q : β → Bool) :
    (L.flatMap f).find? q = L.findSome? (fun v => (f v).find? q) := by
  induction L with
  | nil => rfl
  | cons v L ih =>
    rw [List.flatMap_cons, List.find?_append, List.findSome?_cons, ih]
    cases (f v).find? q <;> rfl

/-- C6: on a tree holding exactly `skills/react-best-practices/SKILL.md`,
both the bare identifier and the `vercel-`-prefixed identifier resolve to
that path; and in general, whenever some variant/template combination is
an exact key hit, `_find_skill_path` returns the first hit in
variant-major, template-minor order. -/
theorem C6_skill_path_resolution :
    GitHubClient.findSkillPath ["skills/react-best-practices/SKILL.md"]
      "react-best-practices" = some "skills/react-best-practices/SKILL.md" ∧
    GitHubClient.findSkillPath ["skills/react-best-practices/SKILL.md"]
      "vercel-react-best-practices" =
      some "skills/react-best-practices/SKILL.md" ∧
    (∀ (skill_paths : List String) (skill_id : String) (p : String),
      ((idVariants skill_id).flatMap priorityPatterns).find?
        (fun pat => skill_paths.contains pat) = some p →
      GitHubClient.findSkillPath skill_paths skill_id = some p) := by
  refine ⟨by decide, by decide, ?_⟩
  intro skill_paths skill_id p h
  rw [find?_flatMap_eq_findSome?] at h
  unfold GitHubClient.findSkillPath findPriority
  rw [h]

/-- C6 witness: the general priority-order clause applied to the concrete
one-file tree. -/
theorem C6_skill_path_resolution_witness :
    GitHubClient.findSkillPath ["skills/react-best-practices/SKILL.md"]
      "vercel-react-best-practices" =
      some "skills/react-best-practices/SKILL.md" :=
  C6_skill_path_resolution.2.2 ["skills/react-best-practices/SKILL.md"]
    "vercel-react-best-practices" "skills/react-best-practices/SKILL.md"
    (by decide)

/-- C7: under the multi-signal ranker, a skill with (truthy) content,
references not requested, query exactly its identifier (an identifier
with no surrounding white space, so the exact-match tier fires) and
10000 installs scores 40 + 30 + 15 = 85; a skill with no content, a zero
query-match fraction and zero installs scores 0. -/
theorem C7_rank_extreme_scores :
    (∀ (skill : Skill) (q c : String),
      skill.content = some c → c ≠ "" → q = skill.id → skill.id ≠ "" →
      pyStrip (pyLower skill.id) = pyLower skill.id →
      skill.install_count = 10000 →
      RelevanceRanker.rankScore skill q false = 85) ∧
    (∀ (skill : Skill) (q : String),
      skill.content = none →
      RelevanceRanker.computeQueryMatch skill q = 0 →
      skill.install_count = 0 →
      RelevanceRanker.rankScore skill q false = 0) := by
  constructor
  · intro skill q c hc hc' hq hid hstrip hinst
    have hqm : RelevanceRanker.computeQueryMatch skill q = 1 := by
      rw [hq]
      simp [RelevanceRanker.computeQueryMatch, hid, hstrip]
    have hpop : RelevanceRanker.popularityScore skill.install_count = 1 := by
      rw [hinst]
      unfold RelevanceRanker.popularityScore
      rw [if_neg (by norm_num)]
      apply min_eq_right
      have h1 : Real.logb 10 ((10 : ℝ) ^ (4 : ℕ)) = 4 := by
        rw [Real.logb_pow, Real.logb_self_eq_one] <;> norm_num
      have h2 : Real.logb 10 ((10 : ℝ) ^ (4 : ℕ)) ≤
          Real.logb 10 (((10000 : ℕ) : ℝ) + 1) := by
        apply (Real.logb_le_logb (by norm_num) (by norm_num) (by norm_num)).mpr
        norm_num
      rw [h1] at h2
      rw [le_div_iff₀ (by norm_num : (0 : ℝ) < 4)]
      linarith
    unfold RelevanceRanker.rankScore
    rw [hqm, hpop]
    simp only [hc, optStrTruthy, Skill.getattrSourceRegistry, reduceCtorEq,
      if_false, false_and, bne_iff_ne, ne_eq, hc', not_false_eq_true, if_true]
    rw [show ((1 : ℚ) : ℝ) = (1 : ℝ) by norm_num]
    have h85 : (1 * RelevanceRanker.CONTENT_WEIGHT +
        0 * RelevanceRanker.REFERENCES_WEIGHT +
        1 * RelevanceRanker.QUERY_MATCH_WEIGHT +
        1 * RelevanceRanker.POPULARITY_WEIGHT +
        0 * RelevanceRanker.CURATED_BOOST * 1 : ℝ) = ((85 : ℤ) : ℝ) := by
      simp only [RelevanceRanker.CONTENT_WEIGHT,
        RelevanceRanker.REFERENCES_WEIGHT, RelevanceRanker.QUERY_MATCH_WEIGHT,
        RelevanceRanker.POPULARITY_WEIGHT, RelevanceRanker.CURATED_BOOST]
      norm_num
    rw [h85, pyRound2_intCast]
    norm_num
  · intro skill q hc hqm hinst
    have hpop : RelevanceRanker.popularityScore skill.install_count = 0 := by
      rw [hinst]; rfl
    unfold RelevanceRanker.rankScore
    rw [hqm, hpop]
    simp only [hc, optStrTruthy, Skill.getattrSourceRegistry, reduceCtorEq,
      if_false, false_and]
    rw [show ((0 : ℚ) : ℝ) = (0 : ℝ) by norm_num]
    have h0 : (0 * RelevanceRanker.CONTENT_WEIGHT +
        0 * RelevanceRanker.REFERENCES_WEIGHT +
        0 * RelevanceRanker.QUERY_MATCH_WEIGHT +
        0 * RelevanceRanker.POPULARITY_WEIGHT +
        0 * RelevanceRanker.CURATED_BOOST * 0 : ℝ) = ((0 : ℤ) : ℝ) := by
      norm_num
    rw [h0, pyRound2_intCast]
    norm_num

/-- C7 witness: the 85 case at a concrete 10000-install skill and the 0
case at a concrete content-less skill. -/
theorem C7_rank_extreme_scores_witness :
    demoSkill.content = some "Use react memo." ∧
    RelevanceRanker.rankScore demoSkill "react-best-practices" false = 85 ∧
    emptySkill.content = none ∧
    RelevanceRanker.computeQueryMatch emptySkill "quantum" = 0 ∧
    RelevanceRanker.rankScore emptySkill "quantum" false = 0 :=
  ⟨rfl,
   C7_rank_extreme_scores.1 demoSkill "react-best-practices" "Use react memo."
     rfl (by decide) rfl (by decide) (by decide) rfl,
   rfl,
   by decide,
   C7_rank_extreme_scores.2 emptySkill "quantum" rfl (by decide) rfl⟩

/-- A white-space-only (or empty) document cannot start with the `---`
delimiter. -/
theorem take3_ne_dashes_of_strip_empty (l : List Char)
    (hstrip : pyStripL l = []) : l.take 3 ≠ ['-', '-', '-'] := by
  intro htake
  have hdash : '-' ∈ l := by
    cases l with
    | nil => simp at htake
    | cons a t =>
      simp only [List.take, List.cons.injEq] at htake
      rw [htake.1]
      exact List.mem_cons_self _ _
  have hall : ∀ x ∈ l.dropWhile pySpace, pySpace x = true := by
    intro x hx
    unfold pyStripL at hstrip
    have h1 : (l.dropWhile pySpace).reverse.dropWhile pySpace = [] := by
      rcases h : (l.dropWhile pySpace).reverse.dropWhile pySpace with _ | _
      · rfl
      · rw [h] at hstrip; simp at hstrip
    have h2 := (List.dropWhile_eq_nil_iff).mp h1
    exact h2 x (List.mem_reverse.mpr hx)
  have hdash' : '-' ∈ l.dropWhile pySpace := by
    rcases (List.mem_append.mp
      (by rw [List.takeWhile_append_dropWhile]; exact hdash :
        '-' ∈ l.takeWhile pySpace ++ l.dropWhile pySpace)) with h | h
    · have := List.mem_takeWhile_imp h
      simp [pySpace] at this
    · exact h
  have := hall '-' hdash'
  simp [pySpace] at this

/-- C9 (amended): `parse` raises exactly when the input is empty or
white-space-only, or when a front-matter block is present whose YAML
fails to load or loads to a *truthy* non-mapping value (falsy YAML
values — null, false, 0, empty string/sequence/mapping — are coerced to
the empty mapping and accepted); a white-space-only input never has a
front-matter block; and an input with no front-matter block parses to a
document whose body is the whole stripped input with name `"unknown"`. -/
theorem C9_parse_error_characterization
    (yl : String → Except String Yaml) (s : String) :
    (exceptIsError (SkillParser.parse yl s) = true ↔
      (pyStrip s = "" ∨ fmBlockRejected yl s = true)) ∧
    (pyStrip s = "" → matchFM s.data = none) ∧
    (matchFM s.data = none → pyStrip s ≠ "" →
      SkillParser.parse yl s = Except.ok
        { name := Yaml.str "unknown", description := none, version := none,
          allowed_tools := none, content := pyStrip s, raw := s,
          metadata := [] }) := by
  have hws : pyStrip s = "" → matchFM s.data = none := by
    intro h
    unfold matchFM
    rw [if_neg]
    apply take3_ne_dashes_of_strip_empty
    have : (pyStrip s).data = ("" : String).data := by rw [h]
    simpa [pyStrip] using this
  refine ⟨?_, hws, ?_⟩
  · by_cases hs : pyStrip s = ""
    · simp [SkillParser.parse, hs, exceptIsError]
    · rw [show (SkillParser.parse yl s) = (if pyStrip s = "" then
        Except.error "Empty content" else _) from rfl]
      rw [if_neg hs]
      unfold fmBlockRejected
      cases hm : matchFM s.data with
      | none => simp [exceptIsError, hs]
      | some gr =>
        obtain ⟨g, rest⟩ := gr
        cases hy : yl (String.mk g) with
        | error e => simp [exceptIsError, hy, hs]
        | ok y =>
          by_cases ht : yamlTruthy y = true
          · cases y <;>
              simp_all [exceptIsError, yamlTruthy, Yaml.isMap]
          · simp only [Bool.not_eq_true] at ht
            simp [exceptIsError, hy, ht, hs]
  · intro hm hs
    unfold SkillParser.parse
    rw [if_neg hs, hm]

/-- C9 counterexample: the document `"---\n0\n---\nbody"` has a
front-matter block whose YAML is the non-mapping value `0`, yet `parse`
accepts it (the falsy value is coerced to an empty mapping by
`or \x7b\x7d`), contradicting the claim that a present-but-non-mapping
front matter always raises `ParseError`. -/
theorem C9_falsy_nonmapping_frontmatter_accepted :
    matchFM ("---\n0\n---\nbody" : String).data =
      some (("0" : String).data, ("body" : String).data) ∧
    yamlLoadModel "0" = Except.ok (Yaml.int 0) ∧
    (Yaml.int 0).isMap = false ∧
    pyStrip "---\n0\n---\nbody" ≠ "" ∧
    exceptIsError (SkillParser.parse yamlLoadModel "---\n0\n---\nbody") =
      false := by
  refine ⟨by decide, rfl, rfl, by decide, by decide⟩

/-- C9 witness: the characterization applied to a document with no
front-matter block. -/
theorem C9_parse_error_characterization_witness :
    (exceptIsError (SkillParser.parse yamlLoadModel "# no frontmatter") =
        true ↔
      (pyStrip "# no frontmatter" = "" ∨
        fmBlockRejected yamlLoadModel "# no frontmatter" = true)) ∧
    SkillParser.parse yamlLoadModel "# no frontmatter" = Except.ok
      { name := Yaml.str "unknown", description := none, version := none,
        allowed_tools := none, content := pyStrip "# no frontmatter",
        raw := "# no frontmatter", metadata := [] } :=
  ⟨(C9_parse_error_characterization yamlLoadModel "# no frontmatter").1,
   (C9_parse_error_characterization yamlLoadModel "# no frontmatter").2.2
     (by decide) (by decide)⟩

/-- A separator-free list splits into itself. -/
theorem pySplitChar_of_not_mem (sep : Char) (l : List Char) (h : sep ∉ l) :
    pySplitChar sep l = [l] := by
  induction l with
  | nil => rfl
  | cons c t ih =>
    simp only [List.mem_cons, not_or] at h
    rw [pySplitChar, if_neg (fun hc => h.1 hc.symm)]
    rw [ih h.2]

/-- Splitting at the first separator after a separator-free chunk. -/
theorem pySplitChar_append (sep : Char) (a b : List Char) (h : sep ∉ a) :
    pySplitChar sep (a ++ sep :: b) = a :: pySplitChar sep b := by
  induction a with
  | nil => simp [pySplitChar]
  | cons c a' ih =>
    simp only [List.mem_cons, not_or] at h
    rw [List.cons_append, pySplitChar, if_neg (fun hc => h.1 hc.symm)]
    rw [ih h.2]

/-- A split result is never the empty list of chunks. -/
theorem pySplitChar_ne_nil (sep : Char) (l : List Char) :
    pySplitChar sep l ≠ [] := by
  induction l with
  | nil => simp [pySplitChar]
  | cons c t ih =>
    rw [pySplitChar]
    split
    · simp
    · rcases h : pySplitChar sep t with _ | _
      · exact absurd h ih
      · simp

/-- Stripping ignores a leading blank. -/
theorem pyStripL_cons_space (l : List Char) :
    pyStripL (' ' :: l) = pyStripL l := by
  unfold pyStripL
  rw [List.dropWhile_cons_of_pos (by decide)]

/-- Splitting the `", "`-join of comma-free chunks recovers the chunks up
to stripping. -/
theorem split_join_comma (ls : List (List Char))
    (h : ∀ l ∈ ls, (',' : Char) ∉ l) (hne : ls ≠ []) :
    (pySplitChar ',' (joinCommaSpaceL ls)).map pyStripL = ls.map pyStripL := by
  induction ls with
  | nil => exact absurd rfl hne
  | cons t ts ih =>
    cases ts with
    | nil =>
      rw [show joinCommaSpaceL [t] = t from rfl,
        pySplitChar_of_not_mem _ _ (h t (List.mem_cons_self _ _))]
    | cons t₂ ts₂ =>
      rw [show joinCommaSpaceL (t :: t₂ :: ts₂) =
        t ++ (',' :: ' ' :: joinCommaSpaceL (t₂ :: ts₂)) from rfl]
      rw [pySplitChar_append _ _ _ (h t (List.mem_cons_self _ _))]
      obtain ⟨hd, tl, heq⟩ : ∃ hd tl,
          pySplitChar ',' (joinCommaSpaceL (t₂ :: ts₂)) = hd :: tl := by
        rcases hsp : pySplitChar ',' (joinCommaSpaceL (t₂ :: ts₂)) with _ | ⟨hd, tl⟩
        · exact absurd hsp (pySplitChar_ne_nil _ _)
        · exact ⟨hd, tl, rfl⟩
      have hsp2 : pySplitChar ',' (' ' :: joinCommaSpaceL (t₂ :: ts₂)) =
          (' ' :: hd) :: tl := by
        rw [pySplitChar, if_neg (by decide), heq]
      rw [hsp2]
      have ihh := ih (fun l hl => h l (List.mem_cons_of_mem _ hl)) (by simp)
      rw [heq] at ihh
      simp only [List.map_cons] at ihh ⊢
      rw [List.cons.injEq] at ihh
      rw [pyStripL_cons_space, ihh.1, ihh.2]

/-- C10: the comma-separated string form and the native list form of the
same (comma-free, non-blank) tool names normalize to the identical
ordered list; the concrete example `"Bash, Read, Write"` versus
`[Bash, Read, Write]` yields `["Bash", "Read", "Write"]` both ways; a
missing or null value and every non-list non-string value yield
absent. -/
theorem C10_allowed_tools_normalization :
    (SkillParser.parseAllowedTools (some (Yaml.str "Bash, Read, Write")) =
      some ["Bash", "Read", "Write"] ∧
     SkillParser.parseAllowedTools (some (Yaml.list
       [Yaml.str "Bash", Yaml.str "Read", Yaml.str "Write"])) =
      some ["Bash", "Read", "Write"]) ∧
    (∀ ts : List String,
      (∀ t ∈ ts, pyStrip t ≠ "" ∧ (',' : Char) ∉ t.data) →
      SkillParser.parseAllowedTools (some (Yaml.str (joinCommaSpace ts))) =
        SkillParser.parseAllowedTools (some (Yaml.list (ts.map Yaml.str)))) ∧
    (SkillParser.parseAllowedTools none = none ∧
     SkillParser.parseAllowedTools (some Yaml.null) = none ∧
     (∀ n : ℤ, SkillParser.parseAllowedTools (some (Yaml.int n)) = none) ∧
     (∀ b : Bool, SkillParser.parseAllowedTools (some (Yaml.bool b)) = none) ∧
     (∀ kvs, SkillParser.parseAllowedTools (some (Yaml.map kvs)) = none)) := by
  refine ⟨⟨by decide, by decide⟩, ?_, rfl, rfl, fun n => rfl, fun b => rfl,
    fun kvs => rfl⟩
  intro ts h
  cases ts with
  | nil => decide
  | cons t₀ ts₀ =>
    have hsplit := split_join_comma ((t₀ :: ts₀).map String.data)
      (by
        intro l hl
        obtain ⟨t, ht, rfl⟩ := List.mem_map.mp hl
        exact (h t ht).2)
      (by simp)
    have hne : ∀ t ∈ t₀ :: ts₀, t ≠ "" := by
      intro t ht he
      exact (h t ht).1 (by rw [he]; rfl)
    simp only [SkillParser.parseAllowedTools, Option.some.injEq]
    -- string side
    have hdata : (joinCommaSpace (t₀ :: ts₀)).data =
        joinCommaSpaceL ((t₀ :: ts₀).map String.data) := rfl
    rw [show pySplitComma (joinCommaSpace (t₀ :: ts₀)).data =
      pySplitChar ',' (joinCommaSpaceL ((t₀ :: ts₀).map String.data)) from rfl]
    have hmk : (pySplitChar ','
        (joinCommaSpaceL ((t₀ :: ts₀).map String.data))).map
        (fun t => String.mk (pyStripL t)) =
        ((t₀ :: ts₀).map String.data).map (fun t => String.mk (pyStripL t)) := by
      have := congrArg (List.map String.mk) hsplit
      simpa [List.map_map, Function.comp] using this
    rw [hmk]
    -- both sides are the stripped names
    have hstr : ((t₀ :: ts₀).map String.data).map
        (fun t => String.mk (pyStripL t)) = (t₀ :: ts₀).map pyStrip := by
      simp [List.map_map, Function.comp, pyStrip]
    rw [hstr]
    rw [List.filter_eq_self.mpr]
    · -- list side
      have hfil : (((t₀ :: ts₀).map Yaml.str).filter yamlTruthy) =
          (t₀ :: ts₀).map Yaml.str := by
        rw [List.filter_eq_self]
        intro a ha
        obtain ⟨t, ht, rfl⟩ := List.mem_map.mp ha
        simpa [yamlTruthy] using hne t ht
      rw [hfil]
      simp [List.map_map, Function.comp, Yaml.pyStr]
    · intro a ha
      obtain ⟨t, ht, rfl⟩ := List.mem_map.mp ha
      simpa using (h t ht).1

/-- C10 witness: the general string/list agreement applied to the
three-name example. -/
theorem C10_allowed_tools_normalization_witness :
    SkillParser.parseAllowedTools (some (Yaml.str
      (joinCommaSpace ["Bash", "Read", "Write"]))) =
      SkillParser.parseAllowedTools (some (Yaml.list
        (["Bash", "Read", "Write"].map Yaml.str))) :=
  C10_allowed_tools_normalization.2.1 ["Bash", "Read", "Write"] (by decide)

/-- Every entry of a deduplication step is an old entry or the incoming
keyed result. -/
theorem mem_dedupStep {seen : List (String × SkillSearchResult)}
    {r : SkillSearchResult} {kv : String × SkillSearchResult}
    (h : kv ∈ dedupStep seen r) :
    kv ∈ seen ∨ kv = (r.uniqueKey, r) := by
  simp only [dedupStep] at h
  by_cases hn : (List.find? (fun kv => kv.1 == r.uniqueKey) seen).isNone = true
  · rw [if_pos hn] at h
    rcases List.mem_append.mp h with h1 | h1
    · exact Or.inl h1
    · simp only [List.mem_singleton] at h1
      exact Or.inr h1
  · rw [if_neg hn] at h
    by_cases hm : (r.source_registry == "skills.sh") = true
    · rw [if_pos hm] at h
      obtain ⟨kv0, hkv0, heq⟩ := List.mem_map.mp h
      by_cases hb : (kv0.1 == r.uniqueKey) = true
      · rw [if_pos hb] at heq
        exact Or.inr heq.symm
      · rw [if_neg hb] at heq
        exact Or.inl (heq ▸ hkv0)
    · rw [if_neg hm] at h
      exact Or.inl h

/-- A deduplication step appends the new key (fresh case) or leaves the
key sequence unchanged (overwrite and ignore cases). -/
theorem dedupStep_map_fst (seen : List (String × SkillSearchResult))
    (r : SkillSearchResult) :
    ((dedupStep seen r).map Prod.fst = seen.map Prod.fst ++ [r.uniqueKey] ∧
      (seen.find? (fun kv => kv.1 == r.uniqueKey)).isNone = true) ∨
    (dedupStep seen r).map Prod.fst = seen.map Prod.fst := by
  simp only [dedupStep]
  by_cases hn : (List.find? (fun kv => kv.1 == r.uniqueKey) seen).isNone = true
  · rw [if_pos hn]
    exact Or.inl ⟨by simp, hn⟩
  · rw [if_neg hn]
    by_cases hm : (r.source_registry == "skills.sh") = true
    · rw [if_pos hm]
      right
      rw [List.map_map]
      apply List.map_congr_left
      intro kv _
      by_cases hb : (kv.1 == r.uniqueKey) = true
      · have hkey := eq_of_beq hb
        simp [Function.comp, hb, hkey]
      · simp [Function.comp, hb]
    · rw [if_neg hm]
      exact Or.inr rfl

/-- Key correctness: every accumulated entry is keyed by its value's
unique key. -/
theorem dedup_keys_correct (rs : List SkillSearchResult)
    (seen : List (String × SkillSearchResult))
    (h : ∀ kv ∈ seen, kv.1 = kv.2.uniqueKey) :
    ∀ kv ∈ rs.foldl dedupStep seen, kv.1 = kv.2.uniqueKey := by
  induction rs generalizing seen with
  | nil => exact h
  | cons r rest ih =>
    rw [List.foldl_cons]
    apply ih
    intro kv hkv
    rcases mem_dedupStep hkv with h1 | h1
    · exact h kv h1
    · rw [h1]

/-- Key uniqueness: the accumulated key sequence stays duplicate-free. -/
theorem dedup_keys_nodup (rs : List SkillSearchResult)
    (seen : List (String × SkillSearchResult))
    (h : (seen.map Prod.fst).Nodup) :
    ((rs.foldl dedupStep seen).map Prod.fst).Nodup := by
  induction rs generalizing seen with
  | nil => exact h
  | cons r rest ih =>
    rw [List.foldl_cons]
    apply ih
    rcases dedupStep_map_fst seen r with ⟨heq, hnone⟩ | heq
    · rw [heq, List.nodup_append]
      refine ⟨h, List.nodup_singleton _, ?_⟩
      intro a ha hb
      simp only [List.mem_singleton] at hb
      subst hb
      obtain ⟨kv, hkv, hfst⟩ := List.mem_map.mp ha
      rw [Option.isNone_iff_eq_none, List.find?_eq_none] at hnone
      exact absurd (by simp [hfst]) (hnone kv hkv)
    · rw [heq]
      exact h

/-- Provenance: every accumulated value comes from the processed results
or the initial accumulator. -/
theorem dedup_values_from (rs : List SkillSearchResult)
    (seen : List (String × SkillSearchResult)) :
    ∀ kv ∈ rs.foldl dedupStep seen, kv.2 ∈ seen.map Prod.snd ∨ kv.2 ∈ rs := by
  induction rs generalizing seen with
  | nil =>
    intro kv hkv
    exact Or.inl (List.mem_map_of_mem _ hkv)
  | cons r rest ih =>
    intro kv hkv
    rw [List.foldl_cons] at hkv
    rcases ih (dedupStep seen r) kv hkv with h1 | h1
    · obtain ⟨kv0, hkv0, heq⟩ := List.mem_map.mp h1
      rcases mem_dedupStep hkv0 with h2 | h2
      · exact Or.inl (heq ▸ List.mem_map_of_mem _ h2)
      · right
        rw [← heq, h2]
        exact List.mem_cons_self _ _
    · exact Or.inr (List.mem_cons_of_mem _ h1)

/-- A step preserves the presence of a key. -/
theorem hasKey_dedupStep (seen : List (String × SkillSearchResult))
    (r : SkillSearchResult) (k : String) (h : hasKey seen k) :
    hasKey (dedupStep seen r) k := by
  obtain ⟨kv, hkv, hk⟩ := h
  simp only [dedupStep]
  by_cases hn : (List.find? (fun kv => kv.1 == r.uniqueKey) seen).isNone = true
  · rw [if_pos hn]
    exact ⟨kv, List.mem_append_left _ hkv, hk⟩
  · rw [if_neg hn]
    by_cases hm : (r.source_registry == "skills.sh") = true
    · rw [if_pos hm]
      refine ⟨if (kv.1 == r.uniqueKey) = true then (r.uniqueKey, r) else kv,
        List.mem_map_of_mem _ hkv, ?_⟩
      by_cases hb : (kv.1 == r.uniqueKey) = true
      · rw [if_pos hb, ← eq_of_beq hb, hk]
      · rw [if_neg hb, hk]
    · rw [if_neg hm]
      exact ⟨kv, hkv, hk⟩

/-- A step preserves "the entry at `k` is marketplace-sourced", provided
an entry at `k` already exists. -/
theorem mktAt_dedupStep (seen : List (String × SkillSearchResult))
    (r : SkillSearchResult) (k : String) (hhas : hasKey seen k)
    (hmkt : mktAt seen k) : mktAt (dedupStep seen r) k := by
  intro kv hkv hk
  rcases mem_dedupStep hkv with h1 | h1
  · exact hmkt kv h1 hk
  · subst h1
    simp only [dedupStep] at hkv
    by_cases hn : (List.find? (fun kv => kv.1 == r.uniqueKey) seen).isNone = true
    · -- fresh key: no entry at r.uniqueKey existed, but one at k does,
      -- and k = r.uniqueKey, contradiction
      obtain ⟨kv0, hkv0, hk0⟩ := hhas
      rw [Option.isNone_iff_eq_none, List.find?_eq_none] at hn
      have hb : (kv0.1 == r.uniqueKey) = true := by
        rw [hk0, ← hk]
        simp
      exact absurd hb (by simpa using hn kv0 hkv0)
    · rw [if_neg hn] at hkv
      by_cases hm : (r.source_registry == "skills.sh") = true
      · exact eq_of_beq hm
      · rw [if_neg hm] at hkv
        exact hmkt _ hkv hk

/-- Processing a marketplace result installs a marketplace-sourced entry
at its key. -/
theorem mkt_self_dedupStep (seen : List (String × SkillSearchResult))
    (r : SkillSearchResult) (hr : r.source_registry = "skills.sh") :
    hasKey (dedupStep seen r) r.uniqueKey ∧
      mktAt (dedupStep seen r) r.uniqueKey := by
  simp only [dedupStep]
  by_cases hn : (List.find? (fun kv => kv.1 == r.uniqueKey) seen).isNone = true
  · rw [if_pos hn]
    constructor
    · exact ⟨(r.uniqueKey, r), List.mem_append_right _ (by simp), rfl⟩
    · intro kv hkv hk
      rcases List.mem_append.mp hkv with h1 | h1
      · rw [Option.isNone_iff_eq_none, List.find?_eq_none] at hn
        exact absurd (by simp [hk]) (hn kv h1)
      · simp only [List.mem_singleton] at h1
        rw [h1, hr]
  · rw [if_neg hn, if_pos (by simp [hr])]
    constructor
    · rcases hf : List.find? (fun kv => kv.1 == r.uniqueKey) seen with _ | kv0
      · rw [hf] at hn
        simp at hn
      · have hkv0 := List.find?_some hf
        have hmem := List.mem_of_find?_eq_some hf
        refine ⟨if (kv0.1 == r.uniqueKey) = true then (r.uniqueKey, r) else kv0,
          List.mem_map_of_mem _ hmem, ?_⟩
        rw [if_pos hkv0]
    · intro kv hkv hk
      obtain ⟨kv0, hkv0, heq⟩ := List.mem_map.mp hkv
      by_cases hb : (kv0.1 == r.uniqueKey) = true
      · rw [if_pos hb] at heq
        rw [← heq, hr]
      · rw [if_neg hb] at heq
        rw [← heq] at hk
        exact absurd (by simp [hk]) hb

/-- Folding preserves a marketplace-sourced entry at `k`. -/
theorem mktAt_foldl (rs : List SkillSearchResult)
    (seen : List (String × SkillSearchResult)) (k : String)
    (hhas : hasKey seen k) (hmkt : mktAt seen k) :
    hasKey (rs.foldl dedupStep seen) k ∧
      mktAt (rs.foldl dedupStep seen) k := by
  induction rs generalizing seen with
  | nil => exact ⟨hhas, hmkt⟩
  | cons r rest ih =>
    rw [List.foldl_cons]
    exact ih (dedupStep seen r)
      (hasKey_dedupStep seen r k hhas)
      (mktAt_dedupStep seen r k hhas hmkt)

/-- If some processed result with key `k` is marketplace-sourced, the
final entry at `k` is marketplace-sourced. -/
theorem mkt_pref_foldl (rs : List SkillSearchResult)
    (seen : List (String × SkillSearchResult)) (k : String)
    (hex : ∃ r ∈ rs, r.uniqueKey = k ∧ r.source_registry = "skills.sh") :
    mktAt (rs.foldl dedupStep seen) k := by
  induction rs generalizing seen with
  | nil =>
    obtain ⟨r, hr, _⟩ := hex
    exact absurd hr (List.not_mem_nil r)
  | cons r₀ rest ih =>
    rw [List.foldl_cons]
    obtain ⟨r, hr, hrk, hrm⟩ := hex
    rcases List.mem_cons.mp hr with rfl | hr'
    · -- the head result establishes a marketplace entry at k …
      by_cases hex' : ∃ r' ∈ rest, r'.uniqueKey = k ∧
          r'.source_registry = "skills.sh"
      · exact ih (dedupStep seen r) hex'
      · -- … and no later result disturbs it
        have h0 := mkt_self_dedupStep seen r hrm
        rw [hrk] at h0
        exact (mktAt_foldl rest (dedupStep seen r) k h0.1 h0.2).2
    · exact ih (dedupStep seen r₀) ⟨r, hr', hrk, hrm⟩

/-- Folding preserves the presence of a key. -/
theorem hasKey_foldl (rs : List SkillSearchResult)
    (seen : List (String × SkillSearchResult)) (k : String)
    (h : hasKey seen k) : hasKey (rs.foldl dedupStep seen) k := by
  induction rs generalizing seen with
  | nil => exact h
  | cons r rest ih =>
    rw [List.foldl_cons]
    exact ih (dedupStep seen r) (hasKey_dedupStep seen r k h)

/-- Folding preserves presence of any processed result's key
(deduplication retains an entry for every input key). -/
theorem hasKey_foldl_of_mem (rs : List SkillSearchResult)
    (seen : List (String × SkillSearchResult)) (r : SkillSearchResult)
    (hr : r ∈ rs) :
    hasKey (rs.foldl dedupStep seen) r.uniqueKey := by
  induction rs generalizing seen with
  | nil => exact absurd hr (List.not_mem_nil r)
  | cons r₀ rest ih =>
    rw [List.foldl_cons]
    rcases List.mem_cons.mp hr with rfl | hr'
    · -- the head installs its key; later steps preserve presence
      have h0 : hasKey (dedupStep seen r) r.uniqueKey := by
        simp only [dedupStep]
        by_cases hn : (List.find? (fun kv => kv.1 == r.uniqueKey) seen).isNone
          = true
        · rw [if_pos hn]
          exact ⟨(r.uniqueKey, r), List.mem_append_right _ (by simp), rfl⟩
        · rcases hf : List.find? (fun kv => kv.1 == r.uniqueKey) seen
            with _ | kv0
          · rw [hf] at hn
            simp at hn
          · have hkv0 := List.find?_some hf
            have hmem := List.mem_of_find?_eq_some hf
            rw [if_neg hn]
            by_cases hm : (r.source_registry == "skills.sh") = true
            · rw [if_pos hm]
              refine ⟨if (kv0.1 == r.uniqueKey) = true then (r.uniqueKey, r)
                else kv0, List.mem_map_of_mem _ hmem, ?_⟩
              rw [if_pos hkv0]
            · rw [if_neg hm]
              exact ⟨kv0, hmem, eq_of_beq hkv0⟩
      exact hasKey_foldl rest (dedupStep seen r) r.uniqueKey h0
    · exact ih (dedupStep seen r₀) hr'

/-- C5: the merge of the per-source result lists keeps exactly one result
per case-insensitive unique key (keys are duplicate-free and every input
key is represented), every retained result is an input result, a key for
which any input result is marketplace-sourced (`"skills.sh"`) retains a
marketplace-sourced result; the final output is sorted by install count
descending and truncated to the requested limit. -/
theorem C5_source_aggregation (lists : List (List SkillSearchResult))
    (limit : ℕ) :
    ((((lists.flatten.foldl dedupStep []).map Prod.snd).map
        SkillSearchResult.uniqueKey).Nodup) ∧
    (∀ r' ∈ (lists.flatten.foldl dedupStep []).map Prod.snd,
      r' ∈ lists.flatten) ∧
    (∀ r ∈ lists.flatten,
      ∃ r' ∈ (lists.flatten.foldl dedupStep []).map Prod.snd,
        r'.uniqueKey = r.uniqueKey) ∧
    (∀ r' ∈ (lists.flatten.foldl dedupStep []).map Prod.snd,
      (∃ r ∈ lists.flatten, r.uniqueKey = r'.uniqueKey ∧
        r.source_registry = "skills.sh") →
      r'.source_registry = "skills.sh") ∧
    List.Pairwise (fun a b => b.installs ≤ a.installs)
      (SkillSearchService.searchAllSources lists limit) ∧
    (SkillSearchService.searchAllSources lists limit).length ≤ limit ∧
    (∀ r ∈ SkillSearchService.searchAllSources lists limit,
      r ∈ (lists.flatten.foldl dedupStep []).map Prod.snd) := by
  have hkc := dedup_keys_correct lists.flatten []
    (by intro kv h; exact absurd h (List.not_mem_nil kv))
  have hout : SkillSearchService.searchAllSources lists limit =
      (((lists.flatten.foldl dedupStep []).map Prod.snd).mergeSort
        installsDescLe).take limit := rfl
  have htrans : ∀ a b c, installsDescLe a b = true → installsDescLe b c = true →
      installsDescLe a c = true := by
    intro a b c hab hbc
    simp only [installsDescLe, decide_eq_true_eq] at *
    omega
  have htotal : ∀ a b, (installsDescLe a b || installsDescLe b a) = true := by
    intro a b
    simp only [installsDescLe, Bool.or_eq_true, decide_eq_true_eq]
    omega
  have hsorted := List.sorted_mergeSort htrans htotal
    ((lists.flatten.foldl dedupStep []).map Prod.snd)
  refine ⟨?_, ?_, ?_, ?_, ?_, ?_, ?_⟩
  · have h1 : ((lists.flatten.foldl dedupStep []).map Prod.snd).map
        SkillSearchResult.uniqueKey =
        (lists.flatten.foldl dedupStep []).map Prod.fst := by
      rw [List.map_map]
      apply List.map_congr_left
      intro kv hkv
      exact (hkc kv hkv).symm
    rw [h1]
    exact dedup_keys_nodup _ [] (by simp)
  · intro r' hr'
    obtain ⟨kv, hkv, heq⟩ := List.mem_map.mp hr'
    rcases dedup_values_from lists.flatten [] kv hkv with h1 | h1
    · simp at h1
    · exact heq ▸ h1
  · intro r hr
    obtain ⟨kv, hkv, hk⟩ := hasKey_foldl_of_mem lists.flatten [] r hr
    exact ⟨kv.2, List.mem_map_of_mem _ hkv, by rw [← hkc kv hkv, hk]⟩
  · intro r' hr' hex
    obtain ⟨kv, hkv, heq⟩ := List.mem_map.mp hr'
    have hm := mkt_pref_foldl lists.flatten [] r'.uniqueKey
      (by
        obtain ⟨r, hr, hk, hmkt⟩ := hex
        exact ⟨r, hr, hk, hmkt⟩)
    rw [← heq]
    exact hm kv hkv (by rw [hkc kv hkv, heq])
  · rw [hout]
    refine List.Pairwise.imp ?_
      (List.Pairwise.sublist (List.take_sublist _ _) hsorted)
    intro a b hab
    simpa [installsDescLe] using hab
  · rw [hout, List.length_take]
    exact min_le_left _ _
  · intro r hr
    rw [hout] at hr
    exact (List.mergeSort_perm _ _).subset
      ((List.take_sublist _ _).subset hr)

/-- C5 witness: the aggregation facts at a concrete two-source search in
which the curated registry and the marketplace collide on one key. -/
theorem C5_source_aggregation_witness :
    (((([[mktResult, mktResult2], [curatedDup]].flatten.foldl dedupStep
        []).map Prod.snd).map SkillSearchResult.uniqueKey).Nodup) ∧
    (SkillSearchService.searchAllSources
      [[mktResult, mktResult2], [curatedDup]] 10).length ≤ 10 ∧
    (∀ r' ∈ ([[mktResult, mktResult2], [curatedDup]].flatten.foldl dedupStep
        []).map Prod.snd,
      (∃ r ∈ [[mktResult, mktResult2], [curatedDup]].flatten,
        r.uniqueKey = r'.uniqueKey ∧ r.source_registry = "skills.sh") →
      r'.source_registry = "skills.sh") :=
  ⟨(C5_source_aggregation [[mktResult, mktResult2], [curatedDup]] 10).1,
   (C5_source_aggregation [[mktResult, mktResult2], [curatedDup]]
     10).2.2.2.2.2.1,
   (C5_source_aggregation [[mktResult, mktResult2], [curatedDup]]
     10).2.2.2.1⟩
